import Mathlib

/-!
Verification of the media_trimmer track-removal pipeline.

Shallow embedding of the Python sources:
  - src/track_manager.py   : TrackInfo, TrackManager.filter_tracks_by_type
  - src/space_analyzer.py  : StreamSize, SpaceAnalyzer.get_stream_sizes,
                             SpaceAnalyzer.analyze_savings
  - src/video_processor.py : VideoProcessor.__init__ (worker sizing),
                             process_video (transcode/backup/move control flow),
                             process_videos (batch scheduling and summary)
  - src/main.py            : parse_language_list

Filesystem and subprocess effects are modelled by an explicit state record
and an oracle of step outcomes; everything else follows the source line by
line. Python truthiness of an optional list argument (None or empty list is
falsy) is modelled by the empty list.
-/

namespace MediaTrimmer

/-- Python str.lower (ASCII case folding, the relevant domain for language
codes), modelled character by character so that the kernel can evaluate it. -/
def lowerStr (s : String) : String := ⟨s.data.map Char.toLower⟩

/-- Python str.strip at the character level: remove leading and trailing
whitespace. -/
def stripChars (l : List Char) : List Char :=
  ((l.dropWhile Char.isWhitespace).reverse.dropWhile Char.isWhitespace).reverse

/-- Python str.strip: remove leading and trailing whitespace. -/
def stripStr (s : String) : String := ⟨stripChars s.data⟩

/-- Python str.split on a comma at the character level: splitting the empty
string yields one empty piece, as in Python. -/
def splitOnComma : List Char → List (List Char)
  | [] => [[]]
  | c :: cs =>
    if c = ',' then [] :: splitOnComma cs
    else
      match splitOnComma cs with
      | [] => [[c]]
      | piece :: rest => (c :: piece) :: rest

/-- Python str.split on a comma. -/
def splitCommas (s : String) : List String :=
  (splitOnComma s.data).map (fun l => ⟨l⟩)

/-- Track descriptor, from the TrackInfo dataclass in src/track_manager.py. -/
structure TrackInfo where
  index : Nat
  type : String
  language : Option String
  title : Option String
  default : Bool
  forced : Bool
  deriving Repr, DecidableEq

/-- Normalized language of a track, from src/track_manager.py line 27:
track.language.lower() if track.language else the sentinel und. A missing
language, and also the empty string (falsy in Python), normalize to und. -/
def normLang (language : Option String) : String :=
  match language with
  | none => "und"
  | some s => if s = "" then "und" else lowerStr s

/-- The shared conditional of src/track_manager.py lines 29-32 and
src/space_analyzer.py lines 102-106: a language matches for removal when the
remove list is active (nonempty) and contains it, or else when the keep list
is active and does not contain it. -/
def langMatches (remove_languages keep_languages : List String) (lang : String) : Bool :=
  if remove_languages ≠ [] ∧ lang ∈ remove_languages then true
  else if keep_languages ≠ [] ∧ lang ∉ keep_languages then true
  else false

/-- Selector decision for one track, from the loop body of
TrackManager.filter_tracks_by_type (src/track_manager.py lines 26-32). -/
def trackSelected (remove_languages keep_languages : List String) (t : TrackInfo) : Bool :=
  langMatches remove_languages keep_languages (normLang t.language)

/-- TrackManager.filter_tracks_by_type (src/track_manager.py lines 17-34):
returns the indices of tracks of the given type to remove. An inactive
(None or empty) language list is the empty list here. -/
def filter_tracks_by_type (tracks : List TrackInfo) (track_type : String)
    (remove_languages keep_languages : List String) : List Nat :=
  if remove_languages = [] ∧ keep_languages = [] then []
  else
    ((tracks.filter (fun t => t.type == track_type)).filter
      (trackSelected remove_languages keep_languages)).map (fun t => t.index)

/-- parse_language_list from src/main.py lines 38-40: split on commas, strip
and lowercase each entry; the empty (falsy) string yields the empty list. -/
def parse_language_list (lang_string : String) : List String :=
  if lang_string = "" then []
  else (splitCommas lang_string).map (fun x => lowerStr (stripStr x))

/-- Stream size record, from the StreamSize NamedTuple in
src/space_analyzer.py lines 9-12. -/
structure StreamSize where
  type : String
  language : String
  size_bytes : Nat
  deriving Repr, DecidableEq

/-- Raw ffprobe stream metadata consumed by the pipeline: codec type, the
optional tags.language and tags.title entries, the disposition flags, and
the effective bits-per-second value (from the bit_rate field or the BPS /
bit_rate tags), none when undeterminable. -/
structure FFStream where
  codec_type : String
  lang_tag : Option String
  title_tag : Option String
  disp_default : Bool
  disp_forced : Bool
  bit_rate : Option ℚ
  deriving Repr, DecidableEq

/-- Python tags.get with the und default (src/space_analyzer.py line 64):
unlike normLang this does not lowercase and maps an empty tag to itself. -/
def tagLangOrUnd (lang_tag : Option String) : String := lang_tag.getD "und"

/-- Estimated stream size in bytes (src/space_analyzer.py line 61):
int(float(bit_rate) * duration / 8), idealizing float arithmetic as exact
rational arithmetic; the int() truncation is a floor on nonnegative input. -/
def streamEstimatedSize (duration bit_rate : ℚ) : Nat :=
  (⌊bit_rate * duration / 8⌋).toNat

/-- VideoProcessor.get_tracks (src/video_processor.py lines 55-68): enumerate
all streams, keep audio and subtitle ones with their enumeration index. -/
def get_tracks (streams : List FFStream) : List TrackInfo :=
  (streams.enum.filter (fun p =>
      p.2.codec_type == "audio" || p.2.codec_type == "subtitle")).map
    (fun p =>
      { index := p.1, type := p.2.codec_type, language := p.2.lang_tag,
        title := p.2.title_tag, default := p.2.disp_default, forced := p.2.disp_forced })

/-- Stream size entry built for one stream by SpaceAnalyzer.get_stream_sizes
(src/space_analyzer.py lines 62-66). -/
def streamRecord (duration : ℚ) (s : FFStream) : StreamSize :=
  { type := s.codec_type, language := tagLangOrUnd s.lang_tag,
    size_bytes := streamEstimatedSize duration (s.bit_rate.getD 0) }

/-- SpaceAnalyzer.get_stream_sizes (src/space_analyzer.py lines 46-70): keep
audio and subtitle streams that have a determinable bitrate, with the raw
language tag defaulted to und and the bitrate-times-duration size estimate. -/
def get_stream_sizes (duration : ℚ) (streams : List FFStream) : List StreamSize :=
  (streams.filter (fun s =>
      (s.codec_type == "audio" || s.codec_type == "subtitle") && s.bit_rate.isSome)).map
    (streamRecord duration)

/-- Per-kind savings breakdown entry of SpaceAnalyzer.analyze_savings
(src/space_analyzer.py lines 88-91). -/
structure KindBreakdown where
  bytes : Nat
  tracks : Nat
  deriving Repr, DecidableEq

/-- Result dictionary of SpaceAnalyzer.analyze_savings
(src/space_analyzer.py lines 113-117). -/
structure SavingsResult where
  total_savings : Nat
  audio : KindBreakdown
  subtitle : KindBreakdown
  original_size : Nat
  deriving Repr, DecidableEq

/-- Loop body of SpaceAnalyzer.analyze_savings (src/space_analyzer.py lines
93-111): skip kinds not being processed, pick the rule lists for the kind of
the stream, and accumulate size and count when the raw language matches.
Streams of any other type cannot occur here because get_stream_sizes only
emits audio and subtitle streams. -/
def savingsStep (process_audio process_subtitles : Bool)
    (remove_audio_languages keep_audio_languages
     remove_subtitle_languages keep_subtitle_languages : List String)
    (acc : SavingsResult) (stream : StreamSize) : SavingsResult :=
  if !process_audio && stream.type == "audio" then acc
  else if !process_subtitles && stream.type == "subtitle" then acc
  else
    let remove_langs :=
      if stream.type == "audio" then remove_audio_languages else remove_subtitle_languages
    let keep_langs :=
      if stream.type == "audio" then keep_audio_languages else keep_subtitle_languages
    if langMatches remove_langs keep_langs stream.language then
      { acc with
        total_savings := acc.total_savings + stream.size_bytes,
        audio :=
          if stream.type == "audio" then
            { bytes := acc.audio.bytes + stream.size_bytes, tracks := acc.audio.tracks + 1 }
          else acc.audio,
        subtitle :=
          if stream.type == "subtitle" then
            { bytes := acc.subtitle.bytes + stream.size_bytes, tracks := acc.subtitle.tracks + 1 }
          else acc.subtitle }
    else acc

/-- Derived predicate: the loop of analyze_savings counts an audio stream
exactly when audio is processed, the stream is audio, and its raw language
matches the audio rules (src/space_analyzer.py lines 94, 99-106). -/
def audioCounted (process_audio : Bool) (ra ka : List String) (s : StreamSize) : Bool :=
  process_audio && (s.type == "audio") && langMatches ra ka s.language

/-- Derived predicate: the loop of analyze_savings counts a subtitle stream
exactly when subtitles are processed, the stream is subtitle, and its raw
language matches the subtitle rules (src/space_analyzer.py lines 96,
99-106). -/
def subtitleCounted (process_subtitles : Bool) (rs ks : List String) (s : StreamSize) : Bool :=
  process_subtitles && (s.type == "subtitle") && langMatches rs ks s.language

/-- SpaceAnalyzer.analyze_savings (src/space_analyzer.py lines 80-117) on a
successfully probed file: fold the loop body over the stream sizes computed
by get_stream_sizes. -/
def analyze_savings (duration : ℚ) (streams : List FFStream) (original_size : Nat)
    (process_audio process_subtitles : Bool)
    (remove_audio_languages keep_audio_languages
     remove_subtitle_languages keep_subtitle_languages : List String) : SavingsResult :=
  (get_stream_sizes duration streams).foldl
    (savingsStep process_audio process_subtitles
      remove_audio_languages keep_audio_languages
      remove_subtitle_languages keep_subtitle_languages)
    { total_savings := 0, audio := ⟨0, 0⟩, subtitle := ⟨0, 0⟩, original_size := original_size }

/-- Abstract filesystem state around one video file: the content of the
original path (as an abstract value), and whether the temporary
.processing file and the .bak backup exist. -/
structure FSState where
  original : Nat
  tempExists : Bool
  backupExists : Bool
  deriving Repr, DecidableEq

/-- Outcomes of the effectful steps of process_video, abstracting subprocess
exit codes and I/O errors: the write-permission probe (lines 177-182), the
ffmpeg transcode exit status (lines 184-211), the backup copy (lines
213-220) and the final move (lines 222-227) of src/video_processor.py. -/
structure Oracle where
  writeTestOk : Bool
  transcodeOk : Bool
  backupOk : Bool
  moveOk : Bool
  deriving Repr, DecidableEq

/-- Terminal outcome of one process_video call: early return with no matching
tracks, dry-run report of the number of tracks that would be removed, a
successful replacement, or a raised error. -/
inductive PVResult where
  | noChanges
  | dryRun (wouldRemove : Nat)
  | success
  | error
  deriving Repr, DecidableEq

/-- Result of a process_video run: final filesystem state, terminal outcome,
and whether the ffmpeg transcode subprocess was launched. -/
structure PVOutcome where
  fs : FSState
  result : PVResult
  launched : Bool
  deriving Repr, DecidableEq

/-- Track selection of VideoProcessor.process_video (src/video_processor.py
lines 132-144): the audio selection when audio is processed followed by the
subtitle selection when subtitles are processed. -/
def process_video_select (process_audio process_subtitles : Bool)
    (remove_audio_languages keep_audio_languages
     remove_subtitle_languages keep_subtitle_languages : List String)
    (tracks : List TrackInfo) : List Nat :=
  (if process_audio then
      filter_tracks_by_type tracks "audio" remove_audio_languages keep_audio_languages
    else []) ++
  (if process_subtitles then
      filter_tracks_by_type tracks "subtitle" remove_subtitle_languages keep_subtitle_languages
    else [])

/-- Effectful tail of VideoProcessor.process_video after the selection of
tracks_to_remove, as a state transformer over the abstract filesystem with
the effectful steps resolved by the oracle. Control flow follows the source
line by line: the empty-selection early return (src/video_processor.py lines
146-148), the dry-run early return (150-152), stale temp removal (161-162),
then the try block whose except handlers (232-242) and finally clause
(243-248) unlink the temporary file on every abnormal path, with the move
(224) replacing the original on success. -/
def process_video_core (dry_run backup : Bool) (tracks_to_remove : List Nat)
    (o : Oracle) (fs : FSState) (transcoded : Nat) : PVOutcome :=
  if tracks_to_remove = [] then { fs := fs, result := .noChanges, launched := false }
  else if dry_run then { fs := fs, result := .dryRun tracks_to_remove.length, launched := false }
  else
    let fs1 : FSState := { fs with tempExists := false }
    if !o.writeTestOk then
      { fs := { fs1 with tempExists := false }, result := .error, launched := false }
    else
      let fs2 : FSState := { fs1 with tempExists := true }
      if !o.transcodeOk then
        { fs := { fs2 with tempExists := false }, result := .error, launched := true }
      else if backup && !o.backupOk then
        { fs := { fs2 with tempExists := false }, result := .error, launched := true }
      else
        let fs3 : FSState := if backup then { fs2 with backupExists := true } else fs2
        if !o.moveOk then
          { fs := { fs3 with tempExists := false }, result := .error, launched := true }
        else
          { fs := { fs3 with original := transcoded, tempExists := false },
            result := .success, launched := true }

/-- VideoProcessor.process_video as a whole: compute the selection
(lines 130-144), then run the effectful tail. -/
def process_video_run (dry_run backup : Bool)
    (process_audio process_subtitles : Bool)
    (remove_audio_languages keep_audio_languages
     remove_subtitle_languages keep_subtitle_languages : List String)
    (tracks : List TrackInfo)
    (o : Oracle) (fs : FSState) (transcoded : Nat) : PVOutcome :=
  process_video_core dry_run backup
    (process_video_select process_audio process_subtitles
      remove_audio_languages keep_audio_languages
      remove_subtitle_languages keep_subtitle_languages tracks)
    o fs transcoded

/-- Worker pool sizing from VideoProcessor.__init__ (src/video_processor.py
line 21): max_workers or max(1, multiprocessing.cpu_count() - 1), where both
None and 0 are falsy in Python and fall back to the default. -/
def initMaxWorkers (max_workers : Option Int) (cpu_count : Nat) : Int :=
  match max_workers with
  | none => max 1 ((cpu_count : Int) - 1)
  | some n => if n = 0 then max 1 ((cpu_count : Int) - 1) else n

/-- Per-file outcome delivered by a worker to the batch scheduler, from
VideoProcessor._process_single_video (src/video_processor.py lines 250-271):
success with the optional savings pair (total_savings, original_size), or a
failure with an error message; a worker crash surfacing from
future.result() is also a failure message (lines 326-329). -/
inductive SingleResult where
  | ok (savings : Option (Nat × Nat))
  | err (msg : String)
  deriving Repr, DecidableEq

/-- Run summary returned by VideoProcessor.process_videos
(src/video_processor.py lines 334-341). -/
structure BatchSummary where
  total_videos : Nat
  successful : Nat
  failed : Nat
  total_savings : Nat
  total_original_size : Nat
  errors : List String
  deriving Repr, DecidableEq

/-- Batch partition of src/video_processor.py lines 287-289: consecutive
slices of batch_size files. Python range with step 0 raises, so the zero
case (mapped to the empty batch list) is unreachable for valid sizes. -/
def toBatches {α : Type} (n : Nat) : List α → List (List α)
  | [] => []
  | f :: rest =>
    if _h : n = 0 then []
    else (f :: rest).take n :: toBatches n ((f :: rest).drop n)
  termination_by l => l.length
  decreasing_by
    simp only [List.length_drop, List.length_cons]
    omega

/-- Aggregation step of src/video_processor.py lines 312-329: a success bumps
the success counter and, when a savings dictionary is present, the savings
accumulators; a failure bumps the failure counter and appends
name-colon-reason to the error list. -/
def collectOutcome (outcome : String → SingleResult)
    (acc : BatchSummary) (name : String) : BatchSummary :=
  match outcome name with
  | .ok (some p) =>
    { acc with
      successful := acc.successful + 1,
      total_savings := acc.total_savings + p.1,
      total_original_size := acc.total_original_size + p.2 }
  | .ok none => { acc with successful := acc.successful + 1 }
  | .err m =>
    { acc with
      failed := acc.failed + 1,
      errors := acc.errors ++ [name ++ ": " ++ m] }

/-- VideoProcessor.process_videos (src/video_processor.py lines 273-341):
dispatch each batch and fold the per-file outcomes into the summary. Within
a batch, as_completed yields outcomes in a nondeterministic order; the
counts, totals and the shape of every error string are order independent,
and the model folds in submission order. Files are identified by name and
the per-file outcome is abstracted by the outcome function. -/
def process_videos (batch_size : Nat) (outcome : String → SingleResult)
    (videos : List String) : BatchSummary :=
  (toBatches batch_size videos).foldl
    (fun acc batch => batch.foldl (collectOutcome outcome) acc)
    { total_videos := videos.length, successful := 0, failed := 0,
      total_savings := 0, total_original_size := 0, errors := [] }

/-- Modelled from the spec: the analysis phase of the Batch Scheduler with a
file limit (spec section 4.5). The implementing code (the file_limit
parameter of VideoProcessor together with the files_scanned and
files_needing_changes bookkeeping that src/main.py lines 70-99 passes and
consumes) belongs to this repository but is not among the sources at hand,
so this definition follows the spec wording: scan files in order, collect
files requiring changes for execution, and when a limit is given stop once
that many files requiring changes have been found; files without changes
are not counted against the limit. Returns the collected files together
with the number of files scanned. -/
def analysisPhase {α : Type} (needsChanges : α → Bool) :
    Option Nat → List α → List α × Nat
  | _, [] => ([], 0)
  | none, f :: fs =>
    let r := analysisPhase needsChanges none fs
    (if needsChanges f then f :: r.1 else r.1, r.2 + 1)
  | some limit, f :: fs =>
    if limit = 0 then ([], 0)
    else if needsChanges f then
      let r := analysisPhase needsChanges (some (limit - 1)) fs
      (f :: r.1, r.2 + 1)
    else
      let r := analysisPhase needsChanges (some limit) fs
      (r.1, r.2 + 1)

/-! Theorems. -/

/-- Helper: case analysis of the effectful tail of process_video. On every
error exit the original content is intact and the temporary file is gone;
the original changes only on the success exit; whenever the transcode
subprocess was launched no temporary file remains afterwards. -/
theorem process_video_core_cases (dry_run backup : Bool) (tracks_to_remove : List Nat)
    (o : Oracle) (fs : FSState) (transcoded : Nat) :
    ((process_video_core dry_run backup tracks_to_remove o fs transcoded).result
        = PVResult.error →
      (process_video_core dry_run backup tracks_to_remove o fs transcoded).fs.original
          = fs.original
        ∧ (process_video_core dry_run backup tracks_to_remove o fs transcoded).fs.tempExists
          = false)
    ∧ ((process_video_core dry_run backup tracks_to_remove o fs transcoded).result
        ≠ PVResult.success →
      (process_video_core dry_run backup tracks_to_remove o fs transcoded).fs.original
        = fs.original)
    ∧ ((process_video_core dry_run backup tracks_to_remove o fs transcoded).launched
        = true →
      (process_video_core dry_run backup tracks_to_remove o fs transcoded).fs.tempExists
        = false) := by
  dsimp only [process_video_core]
  split_ifs <;> simp

/-- C1: Track Selector correctness. For every track list and kind, with a
remove-set active (and, by the caller-enforced exclusivity invariant, no
keep-set) the selector returns exactly the indices of tracks of that kind
whose normalized language is in the remove-set; with a keep-set active,
exactly the indices of tracks of that kind whose normalized language is not
in the keep-set; with neither rule given, the empty set. -/
theorem C1_selector_correctness (tracks : List TrackInfo) (kind : String)
    (R K : List String) :
    (R ≠ [] → K = [] → filter_tracks_by_type tracks kind R K =
      (tracks.filter (fun t => t.type == kind && decide (normLang t.language ∈ R))).map
        (fun t => t.index))
    ∧ (K ≠ [] → R = [] → filter_tracks_by_type tracks kind R K =
      (tracks.filter (fun t => t.type == kind && decide (normLang t.language ∉ K))).map
        (fun t => t.index))
    ∧ (R = [] → K = [] → filter_tracks_by_type tracks kind R K = []) := by
  refine ⟨?_, ?_, ?_⟩
  · intro hR hK
    subst hK
    rw [filter_tracks_by_type, if_neg (by simp [hR]), List.filter_filter]
    congr 1
    apply List.filter_congr
    intro t _
    simp [trackSelected, langMatches, hR, Bool.and_comm]
  · intro hK hR
    subst hR
    rw [filter_tracks_by_type, if_neg (by simp [hK]), List.filter_filter]
    congr 1
    apply List.filter_congr
    intro t _
    simp [trackSelected, langMatches, hK, Bool.and_comm]
  · intro hR hK
    simp [filter_tracks_by_type, hR, hK]

/-- Witness for C1 on the spec scenario: tracks 0 audio eng, 1 audio jpn,
2 subtitle eng with keep-audio eng selects exactly audio track 1. -/
theorem C1_selector_correctness_witness :
    filter_tracks_by_type
      [⟨0, "audio", some "eng", none, false, false⟩,
       ⟨1, "audio", some "jpn", none, false, false⟩,
       ⟨2, "subtitle", some "eng", none, false, false⟩]
      "audio" [] ["eng"] = [1] :=
  ((C1_selector_correctness
      [⟨0, "audio", some "eng", none, false, false⟩,
       ⟨1, "audio", some "jpn", none, false, false⟩,
       ⟨2, "subtitle", some "eng", none, false, false⟩]
      "audio" [] ["eng"]).2.1 (by decide) rfl).trans (by decide)

/-- C2: failure atomicity of execution. Whenever a process_video run ends in
a raised error (failed write probe, non-zero transcode exit, failed backup
or failed final move) the original file is unchanged and the temporary file
is removed; on every exit path that launched the transcode subprocess the
temporary file is gone afterwards, and the original is only ever replaced on
the successful path. -/
theorem C2_failure_atomicity (dry_run backup process_audio process_subtitles : Bool)
    (ra ka rs ks : List String) (tracks : List TrackInfo)
    (o : Oracle) (fs : FSState) (transcoded : Nat) (out : PVOutcome)
    (hout : process_video_run dry_run backup process_audio process_subtitles
        ra ka rs ks tracks o fs transcoded = out) :
    (out.result = PVResult.error →
      out.fs.original = fs.original ∧ out.fs.tempExists = false)
    ∧ (out.result ≠ PVResult.success → out.fs.original = fs.original)
    ∧ (out.launched = true → out.fs.tempExists = false) := by
  subst hout
  exact process_video_core_cases dry_run backup _ o fs transcoded

/-- Witness for C2: with one removable audio track and a transcode failure,
the original content 5 is preserved and no temporary file remains. -/
theorem C2_failure_atomicity_witness :
    (process_video_run false false true false ["eng"] [] [] []
        [⟨0, "audio", some "eng", none, false, false⟩]
        ⟨true, false, true, true⟩ ⟨5, false, false⟩ 9).fs.original = 5
    ∧ (process_video_run false false true false ["eng"] [] [] []
        [⟨0, "audio", some "eng", none, false, false⟩]
        ⟨true, false, true, true⟩ ⟨5, false, false⟩ 9).fs.tempExists = false :=
  (C2_failure_atomicity false false true false ["eng"] [] [] []
    [⟨0, "audio", some "eng", none, false, false⟩]
    ⟨true, false, true, true⟩ ⟨5, false, false⟩ 9
    (process_video_run false false true false ["eng"] [] [] []
      [⟨0, "audio", some "eng", none, false, false⟩]
      ⟨true, false, true, true⟩ ⟨5, false, false⟩ 9) rfl).1 (by decide)

/-- C6: dry-run is write-free. A process_video run with dry_run enabled
leaves the filesystem state untouched, launches no transcode subprocess,
and, when the rules select tracks, reports the number of tracks that would
be removed (otherwise it reports no changes). -/
theorem C6_dry_run_write_free (backup process_audio process_subtitles : Bool)
    (ra ka rs ks : List String) (tracks : List TrackInfo)
    (o : Oracle) (fs : FSState) (transcoded : Nat) (out : PVOutcome)
    (hout : process_video_run true backup process_audio process_subtitles
        ra ka rs ks tracks o fs transcoded = out) :
    out.fs = fs ∧ out.launched = false
    ∧ (process_video_select process_audio process_subtitles ra ka rs ks tracks ≠ [] →
        out.result = PVResult.dryRun
          (process_video_select process_audio process_subtitles ra ka rs ks tracks).length)
    ∧ (process_video_select process_audio process_subtitles ra ka rs ks tracks = [] →
        out.result = PVResult.noChanges) := by
  subst hout
  dsimp only [process_video_run, process_video_core]
  by_cases h :
      process_video_select process_audio process_subtitles ra ka rs ks tracks = [] <;>
    simp [h]

/-- Witness for C6: a dry run over one English audio track with remove-set
eng reports one track to remove and changes nothing. -/
theorem C6_dry_run_write_free_witness :
    (process_video_run true false true false ["eng"] [] [] []
        [⟨0, "audio", some "eng", none, false, false⟩]
        ⟨true, true, true, true⟩ ⟨5, false, false⟩ 9).fs = ⟨5, false, false⟩
    ∧ (process_video_run true false true false ["eng"] [] [] []
        [⟨0, "audio", some "eng", none, false, false⟩]
        ⟨true, true, true, true⟩ ⟨5, false, false⟩ 9).launched = false
    ∧ (process_video_run true false true false ["eng"] [] [] []
        [⟨0, "audio", some "eng", none, false, false⟩]
        ⟨true, true, true, true⟩ ⟨5, false, false⟩ 9).result = PVResult.dryRun 1 := by
  obtain ⟨h1, h2, h3, -⟩ :=
    C6_dry_run_write_free false true false ["eng"] [] [] []
      [⟨0, "audio", some "eng", none, false, false⟩]
      ⟨true, true, true, true⟩ ⟨5, false, false⟩ 9
      (process_video_run true false true false ["eng"] [] [] []
        [⟨0, "audio", some "eng", none, false, false⟩]
        ⟨true, true, true, true⟩ ⟨5, false, false⟩ 9) rfl
  exact ⟨h1, h2, by rw [h3 (by decide)]; decide⟩

/-- C7: empty selection is a no-op. When the active rules select no tracks,
process_video reports no changes, launches no subprocess and leaves the
filesystem untouched; running it again on the resulting state produces the
identical outcome, so a second pass over an already-processed file changes
nothing. -/
theorem C7_empty_selection_noop (dry_run backup process_audio process_subtitles : Bool)
    (ra ka rs ks : List String) (tracks : List TrackInfo)
    (o : Oracle) (fs : FSState) (transcoded : Nat) (out : PVOutcome)
    (hsel : process_video_select process_audio process_subtitles ra ka rs ks tracks = [])
    (hout : process_video_run dry_run backup process_audio process_subtitles
        ra ka rs ks tracks o fs transcoded = out) :
    out.fs = fs ∧ out.result = PVResult.noChanges ∧ out.launched = false
    ∧ process_video_run dry_run backup process_audio process_subtitles
        ra ka rs ks tracks o out.fs transcoded = out := by
  subst hout
  simp [process_video_run, process_video_core, hsel]

/-- Witness for C7: with remove-set jpn and a single English audio track the
selection is empty and processing is a no-op. -/
theorem C7_empty_selection_noop_witness :
    (process_video_run false false true false ["jpn"] [] [] []
        [⟨0, "audio", some "eng", none, false, false⟩]
        ⟨true, true, true, true⟩ ⟨5, false, false⟩ 9).fs = ⟨5, false, false⟩
    ∧ (process_video_run false false true false ["jpn"] [] [] []
        [⟨0, "audio", some "eng", none, false, false⟩]
        ⟨true, true, true, true⟩ ⟨5, false, false⟩ 9).result = PVResult.noChanges :=
  have h := C7_empty_selection_noop false false true false ["jpn"] [] [] []
    [⟨0, "audio", some "eng", none, false, false⟩]
    ⟨true, true, true, true⟩ ⟨5, false, false⟩ 9
    (process_video_run false false true false ["jpn"] [] [] []
      [⟨0, "audio", some "eng", none, false, false⟩]
      ⟨true, true, true, true⟩ ⟨5, false, false⟩ 9) (by decide) rfl
  ⟨h.1, h.2.1⟩

/-- C9 counterexample: a configured maxWorkers value of 0 is falsy in Python,
so the configured value is not used; with 4 CPUs the pool size becomes 3. -/
theorem C9_counterexample :
    initMaxWorkers (some 0) 4 = 3 ∧ initMaxWorkers (some 0) 4 ≠ 0 := by
  constructor <;> decide

/-- C9 (amended): when maxWorkers is not configured the pool size is the
available parallelism minus one and never less than 1; a configured nonzero
value is used as given; a configured value of 0 is treated as unconfigured
and falls back to the default. -/
theorem C9_worker_sizing (cpu_count : Nat) (n : Int) :
    (initMaxWorkers none cpu_count = max 1 ((cpu_count : Int) - 1)
      ∧ 1 ≤ initMaxWorkers none cpu_count)
    ∧ (n ≠ 0 → initMaxWorkers (some n) cpu_count = n)
    ∧ initMaxWorkers (some 0) cpu_count = max 1 ((cpu_count : Int) - 1) := by
  refine ⟨⟨rfl, le_max_left _ _⟩, ?_, by simp [initMaxWorkers]⟩
  intro hn
  simp [initMaxWorkers, hn]

/-- Witness for C9: a configured value of 2 is used as given. -/
theorem C9_worker_sizing_witness :
    (2 : Int) ≠ 0 ∧ initMaxWorkers (some 2) 4 = 2 :=
  ⟨by decide, (C9_worker_sizing 4 2).2.1 (by decide)⟩

/-- C5: file limit (modelled from the spec, since the implementing code is
not among the sources at hand). The analysis phase with a file limit collects
exactly the first fileLimit files requiring changes, in order: files needing
no changes are not counted against the limit and qualifying files beyond the
limit are not collected, hence not executed in phase 2, which runs precisely
the collected files. -/
theorem C5_file_limit {α : Type} (needsChanges : α → Bool) (limit : Nat)
    (files : List α) :
    (analysisPhase needsChanges (some limit) files).1
        = (files.filter needsChanges).take limit
    ∧ (analysisPhase needsChanges (some limit) files).1.length
        = min limit (files.filter needsChanges).length := by
  have h : (analysisPhase needsChanges (some limit) files).1
      = (files.filter needsChanges).take limit := by
    induction files generalizing limit with
    | nil => simp [analysisPhase]
    | cons f fs ih =>
      by_cases h0 : limit = 0
      · subst h0
        simp [analysisPhase]
      · obtain ⟨m, rfl⟩ : ∃ m, limit = m + 1 :=
          ⟨limit - 1, (Nat.succ_pred_eq_of_pos (Nat.pos_of_ne_zero h0)).symm⟩
        by_cases hf : needsChanges f
        · simp [analysisPhase, hf, ih]
        · simp [analysisPhase, hf, ih]
  exact ⟨h, by rw [h, List.length_take]⟩

/-- Helper: folding batch by batch over a positive batch partition equals
folding over the original list. -/
theorem foldl_toBatches {α β : Type} (g : β → α → β) (n : Nat) (hn : n ≠ 0) :
    ∀ (l : List α) (init : β),
      (toBatches n l).foldl (fun acc batch => batch.foldl g acc) init = l.foldl g init
  | [], _ => by simp [toBatches]
  | f :: rest, init => by
    rw [toBatches, dif_neg hn, List.foldl_cons,
      foldl_toBatches g n hn ((f :: rest).drop n) _,
      ← List.foldl_append, List.take_append_drop]
  termination_by l => l.length
  decreasing_by
    simp only [List.length_drop, List.length_cons]
    omega

/-- Helper: effect of one aggregation step on the summary counters, the
error list and total_videos. -/
theorem collectOutcome_fields (outcome : String → SingleResult)
    (acc : BatchSummary) (v : String) :
    ((collectOutcome outcome acc v).successful + (collectOutcome outcome acc v).failed
      = acc.successful + acc.failed + 1)
    ∧ ((collectOutcome outcome acc v).errors.length + acc.failed
      = acc.errors.length + (collectOutcome outcome acc v).failed)
    ∧ (∀ e ∈ (collectOutcome outcome acc v).errors,
        e ∈ acc.errors ∨ ∃ m, outcome v = SingleResult.err m ∧ e = v ++ ": " ++ m)
    ∧ (collectOutcome outcome acc v).total_videos = acc.total_videos := by
  unfold collectOutcome
  cases h : outcome v with
  | ok savings =>
    cases savings with
    | none => refine ⟨by simp; omega, by simp, by simp, by simp⟩
    | some p => refine ⟨by simp; omega, by simp, by simp, by simp⟩
  | err m =>
    refine ⟨by simp; omega, by simp; omega, ?_, by simp⟩
    intro e he
    simp only [List.mem_append, List.mem_singleton] at he
    rcases he with he | he
    · exact Or.inl he
    · exact Or.inr ⟨m, rfl, he⟩

theorem collect_fold (outcome : String → SingleResult) :
    ∀ (videos : List String) (acc : BatchSummary),
      ((videos.foldl (collectOutcome outcome) acc).successful
          + (videos.foldl (collectOutcome outcome) acc).failed
        = acc.successful + acc.failed + videos.length)
      ∧ ((videos.foldl (collectOutcome outcome) acc).errors.length + acc.failed
        = acc.errors.length + (videos.foldl (collectOutcome outcome) acc).failed)
      ∧ (∀ e ∈ (videos.foldl (collectOutcome outcome) acc).errors,
          e ∈ acc.errors
            ∨ ∃ v ∈ videos, ∃ m, outcome v = SingleResult.err m ∧ e = v ++ ": " ++ m)
      ∧ (videos.foldl (collectOutcome outcome) acc).total_videos = acc.total_videos := by
  -- invariants of the per-file aggregation fold: counters advance by one per
  -- file, the error list grows by one entry per failure, every new entry is
  -- the failing file name, a colon and the reason
  intro videos
  induction videos with
  | nil => intro acc; simp
  | cons v vs ih =>
    intro acc
    rw [List.foldl_cons]
    obtain ⟨ih1, ih2, ih3, ih4⟩ := ih (collectOutcome outcome acc v)
    obtain ⟨s1, s2, s3, s4⟩ := collectOutcome_fields outcome acc v
    refine ⟨by simp only [List.length_cons]; omega, by omega, ?_, by rw [ih4, s4]⟩
    intro e he
    rcases ih3 e he with h | ⟨w, hw, m, hm, he2⟩
    · rcases s3 e h with h2 | ⟨m, hm, he2⟩
      · exact Or.inl h2
      · exact Or.inr ⟨v, List.mem_cons_self _ _, m, hm, he2⟩
    · exact Or.inr ⟨w, List.mem_cons_of_mem _ hw, m, hm, he2⟩

/-- C10: summary consistency of the batch scheduler. For every positive batch
size and file list, the summary satisfies successful plus failed equals the
number of files dispatched, the number of collected error strings equals the
failed count, total_videos records the number of input files, and every
error string is the failing file name, a colon and the reason, for a file
whose outcome was a failure. -/
theorem C10_summary_consistency (batch_size : Nat) (outcome : String → SingleResult)
    (videos : List String) (hb : 0 < batch_size) :
    ((process_videos batch_size outcome videos).successful
        + (process_videos batch_size outcome videos).failed = videos.length)
    ∧ ((process_videos batch_size outcome videos).errors.length
        = (process_videos batch_size outcome videos).failed)
    ∧ ((process_videos batch_size outcome videos).total_videos = videos.length)
    ∧ (∀ e ∈ (process_videos batch_size outcome videos).errors,
        ∃ v ∈ videos, ∃ m, outcome v = SingleResult.err m ∧ e = v ++ ": " ++ m) := by
  have hn : batch_size ≠ 0 := Nat.pos_iff_ne_zero.mp hb
  unfold process_videos
  rw [foldl_toBatches (collectOutcome outcome) batch_size hn videos]
  obtain ⟨h1, h2, h3, h4⟩ := collect_fold outcome videos
    { total_videos := videos.length, successful := 0, failed := 0,
      total_savings := 0, total_original_size := 0, errors := [] }
  refine ⟨by simpa using h1, by simpa using h2, by simpa using h4, ?_⟩
  intro e he
  rcases h3 e he with h | h
  · simp at h
  · exact h

/-- Witness for C10 at batch size 2 over three files, the middle one failing:
two successes and one failure. -/
theorem C10_summary_consistency_witness :
    (0 : Nat) < 2
    ∧ ((process_videos 2
          (fun v => if v = "b" then SingleResult.err "boom"
                    else SingleResult.ok (some (1, 2)))
          ["a", "b", "c"]).successful
        + (process_videos 2
            (fun v => if v = "b" then SingleResult.err "boom"
                      else SingleResult.ok (some (1, 2)))
            ["a", "b", "c"]).failed = 3) :=
  ⟨by decide,
    (C10_summary_consistency 2
      (fun v => if v = "b" then SingleResult.err "boom"
                else SingleResult.ok (some (1, 2)))
      ["a", "b", "c"] (by decide)).1⟩

/-- Helper: packing a small valid codepoint and unpacking it is the
identity. -/
theorem char_toNat_ofNat_valid (n : Nat) (h : n < 55296) : (Char.ofNat n).toNat = n := by
  rw [Char.ofNat, dif_pos (Or.inl h)]
  rfl

/-- Helper: character equality is equality of codepoints. -/
theorem char_eq_iff_toNat (c d : Char) : c = d ↔ c.toNat = d.toNat := by
  constructor
  · intro h; rw [h]
  · intro h
    apply Char.ext
    exact UInt32.toNat.inj h

/-- Helper: ASCII lowercasing is idempotent. -/
theorem toLower_toLower (c : Char) : c.toLower.toLower = c.toLower := by
  simp only [Char.toLower]
  by_cases h : 65 ≤ c.toNat ∧ c.toNat ≤ 90
  · rw [if_pos h]
    have h2 : (Char.ofNat (c.toNat + 32)).toNat = c.toNat + 32 :=
      char_toNat_ofNat_valid _ (by omega)
    rw [if_neg (by rw [h2]; omega)]
  · rw [if_neg h, if_neg h]

/-- Helper: lowercasing maps no character to a comma except the comma. -/
theorem toLower_eq_comma (c : Char) : c.toLower = ',' ↔ c = ',' := by
  simp only [Char.toLower]
  by_cases h : 65 ≤ c.toNat ∧ c.toNat ≤ 90
  · rw [if_pos h]
    constructor
    · intro he
      exfalso
      have h1 := (char_eq_iff_toNat _ _).mp he
      rw [char_toNat_ofNat_valid _ (by omega)] at h1
      have hc : (',' : Char).toNat = 44 := by decide
      omega
    · intro he
      exfalso
      have h1 := (char_eq_iff_toNat _ _).mp he
      have hc : (',' : Char).toNat = 44 := by decide
      omega
  · rw [if_neg h]

/-- Helper: lowercasing preserves whitespace classification. -/
theorem isWhitespace_toLower (c : Char) : c.toLower.isWhitespace = c.isWhitespace := by
  simp only [Char.toLower]
  by_cases h : 65 ≤ c.toNat ∧ c.toNat ≤ 90
  · rw [if_pos h]
    have h2 : (Char.ofNat (c.toNat + 32)).toNat = c.toNat + 32 :=
      char_toNat_ofNat_valid _ (by omega)
    simp only [Char.isWhitespace]
    have hs : (' ' : Char).toNat = 32 := by decide
    have ht : ('\t' : Char).toNat = 9 := by decide
    have hr : ('\r' : Char).toNat = 13 := by decide
    have hn : ('\n' : Char).toNat = 10 := by decide
    simp only [char_eq_iff_toNat, h2, hs, ht, hr, hn]
    simp [show c.toNat + 32 ≠ 32 by omega, show c.toNat ≠ 32 by omega,
          show c.toNat + 32 ≠ 9 by omega, show c.toNat ≠ 9 by omega,
          show c.toNat + 32 ≠ 13 by omega, show c.toNat ≠ 13 by omega,
          show c.toNat + 32 ≠ 10 by omega, show c.toNat ≠ 10 by omega]
  · rw [if_neg h]

/-- Helper: comma splitting commutes with lowercasing. -/
theorem splitOnComma_map_toLower (l : List Char) :
    splitOnComma (l.map Char.toLower)
      = (splitOnComma l).map (fun x => x.map Char.toLower) := by
  induction l with
  | nil => rfl
  | cons c cs ih =>
    simp only [List.map_cons, splitOnComma]
    by_cases hc : c = ','
    · subst hc
      rw [if_pos (by decide), if_pos rfl, ih]
      simp
    · rw [if_neg (fun h => hc ((toLower_eq_comma c).mp h)), if_neg hc, ih]
      cases h : splitOnComma cs with
      | nil => simp
      | cons piece rest => simp

/-- Helper: dropping leading whitespace commutes with lowercasing. -/
theorem dropWhile_map_toLower (l : List Char) :
    (l.map Char.toLower).dropWhile Char.isWhitespace
      = (l.dropWhile Char.isWhitespace).map Char.toLower := by
  induction l with
  | nil => rfl
  | cons c cs ih =>
    simp only [List.map_cons, List.dropWhile_cons, isWhitespace_toLower]
    by_cases hw : c.isWhitespace
    · simp [hw, ih]
    · simp [hw]

/-- Helper: stripping whitespace commutes with lowercasing. -/
theorem stripChars_map_toLower (l : List Char) :
    stripChars (l.map Char.toLower) = (stripChars l).map Char.toLower := by
  simp only [stripChars]
  rw [dropWhile_map_toLower, ← List.map_reverse, dropWhile_map_toLower,
    ← List.map_reverse]

/-- Helper: lowercasing a character list twice equals lowercasing once. -/
theorem map_toLower_idem (l : List Char) :
    (l.map Char.toLower).map Char.toLower = l.map Char.toLower := by
  rw [List.map_map]
  apply List.map_congr_left
  intro a _
  exact toLower_toLower a

/-- Helper: a string is the empty string exactly when its character list is
empty. -/
theorem string_eq_empty_iff (s : String) : s = "" ↔ s.data = [] := by
  cases s with
  | mk d =>
    constructor
    · intro h
      rw [h]
    · intro h
      subst h
      rfl

/-- Helper: the parsed entries of a rule string depend only on its lowercased
characters. -/
theorem parse_pieces (l : List Char) :
    (splitOnComma l).map
        (fun x => (⟨(stripChars x).map Char.toLower⟩ : String))
      = (splitOnComma (l.map Char.toLower)).map
        (fun x => (⟨(stripChars x).map Char.toLower⟩ : String)) := by
  rw [splitOnComma_map_toLower, List.map_map]
  apply List.map_congr_left
  intro x _
  simp only [Function.comp_apply, stripChars_map_toLower, map_toLower_idem]

/-- Helper: parse_language_list is invariant under case changes of the rule
string. -/
theorem parse_language_list_case_invariant (r rV : String)
    (h : lowerStr r = lowerStr rV) :
    parse_language_list r = parse_language_list rV := by
  have hd : r.data.map Char.toLower = rV.data.map Char.toLower := congrArg String.data h
  have hlen : r.data.length = rV.data.length := by
    have h2 := congrArg List.length hd
    simpa using h2
  by_cases h0 : r = ""
  · have h0V : rV = "" := by
      rw [string_eq_empty_iff] at h0 ⊢
      rw [h0] at hlen
      exact List.eq_nil_of_length_eq_zero hlen.symm
    rw [h0, h0V]
  · have h0V : ¬rV = "" := by
      rw [string_eq_empty_iff] at h0 ⊢
      intro hh
      rw [hh] at hlen
      exact h0 (List.eq_nil_of_length_eq_zero hlen)
    rw [parse_language_list, parse_language_list, if_neg h0, if_neg h0V]
    unfold splitCommas
    rw [List.map_map, List.map_map]
    show (splitOnComma r.data).map
        (fun x => (⟨(stripChars x).map Char.toLower⟩ : String))
      = (splitOnComma rV.data).map
        (fun x => (⟨(stripChars x).map Char.toLower⟩ : String))
    rw [parse_pieces r.data, hd, ← parse_pieces rV.data]

/-- Helper: the selector output is unchanged when tracks are replaced by
tracks with the same indices, the same types and the same normalized
languages. -/
theorem filter_tracks_congr (kind : String) (R K : List String)
    (tracks tracksV : List TrackInfo)
    (h : List.Forall₂ (fun t u => t.index = u.index ∧ t.type = u.type
        ∧ normLang t.language = normLang u.language) tracks tracksV) :
    filter_tracks_by_type tracks kind R K = filter_tracks_by_type tracksV kind R K := by
  unfold filter_tracks_by_type
  by_cases hg : R = [] ∧ K = []
  · rw [if_pos hg, if_pos hg]
  · rw [if_neg hg, if_neg hg]
    induction h with
    | nil => rfl
    | @cons t u ts us hrel htail ih =>
      obtain ⟨hidx, hty, hlang⟩ := hrel
      have hty2 : (t.type == kind) = (u.type == kind) := by rw [hty]
      have hsel : trackSelected R K t = trackSelected R K u := by
        unfold trackSelected
        rw [hlang]
      rw [List.filter_cons, List.filter_cons, hty2]
      by_cases hc : (u.type == kind) = true
      · rw [if_pos hc, if_pos hc, List.filter_cons, List.filter_cons, hsel]
        by_cases hs : trackSelected R K u = true
        · rw [if_pos hs, if_pos hs, List.map_cons, List.map_cons, hidx, ih]
        · rw [if_neg hs, if_neg hs, ih]
      · rw [if_neg hc, if_neg hc, ih]

/-- C8: case-insensitive language matching. The selector output is invariant
under changes of letter case in the track languages (tracks agreeing on
index, type and normalized language select identically, and languages equal
up to case normalize identically) and in the rule strings (rule strings
equal up to case parse identically); a track with an unset language is
compared as und. -/
theorem C8_case_insensitivity (tracks tracksV : List TrackInfo) (kind : String)
    (r rV k kV : String)
    (htr : List.Forall₂ (fun t u => t.index = u.index ∧ t.type = u.type
        ∧ normLang t.language = normLang u.language) tracks tracksV)
    (hr : lowerStr r = lowerStr rV) (hk : lowerStr k = lowerStr kV) :
    filter_tracks_by_type tracks kind (parse_language_list r) (parse_language_list k)
      = filter_tracks_by_type tracksV kind (parse_language_list rV) (parse_language_list kV)
    ∧ (∀ s sV : String, lowerStr s = lowerStr sV →
        normLang (some s) = normLang (some sV))
    ∧ normLang none = "und" := by
  refine ⟨?_, ?_, rfl⟩
  · rw [parse_language_list_case_invariant r rV hr,
      parse_language_list_case_invariant k kV hk]
    exact filter_tracks_congr kind _ _ tracks tracksV htr
  · intro s sV hs
    have hd : s.data.map Char.toLower = sV.data.map Char.toLower := congrArg String.data hs
    have hlen : s.data.length = sV.data.length := by
      have h2 := congrArg List.length hd
      simpa using h2
    by_cases h0 : s = ""
    · have h0V : sV = "" := by
        rw [string_eq_empty_iff] at h0 ⊢
        rw [h0] at hlen
        exact List.eq_nil_of_length_eq_zero hlen.symm
      rw [h0, h0V]
    · have h0V : ¬sV = "" := by
        rw [string_eq_empty_iff] at h0 ⊢
        intro hh
        rw [hh] at hlen
        exact h0 (List.eq_nil_of_length_eq_zero hlen)
      simp only [normLang, if_neg h0, if_neg h0V]
      exact hs

/-- Witness for C8: uppercase ENG in the track and mixed-case Eng in the rule
string select the same as their lowercase variants. -/
theorem C8_case_insensitivity_witness :
    filter_tracks_by_type [⟨0, "audio", some "ENG", none, false, false⟩]
        "audio" (parse_language_list "Eng") (parse_language_list "")
      = filter_tracks_by_type [⟨0, "audio", some "eng", none, false, false⟩]
        "audio" (parse_language_list "eng") (parse_language_list "") :=
  (C8_case_insensitivity
    [⟨0, "audio", some "ENG", none, false, false⟩]
    [⟨0, "audio", some "eng", none, false, false⟩]
    "audio" "Eng" "eng" "" ""
    (List.Forall₂.cons ⟨rfl, rfl, by decide⟩ List.Forall₂.nil)
    (by decide) (by decide)).1

/-- Helper: field-level effect of one iteration of the analyze_savings loop
on a stream of audio or subtitle type. -/
theorem savingsStep_fields (pa ps : Bool) (ra ka rs ks : List String)
    (acc : SavingsResult) (s : StreamSize)
    (hs : s.type = "audio" ∨ s.type = "subtitle") :
    ((savingsStep pa ps ra ka rs ks acc s).original_size = acc.original_size)
    ∧ ((savingsStep pa ps ra ka rs ks acc s).audio.tracks
        = acc.audio.tracks + (if audioCounted pa ra ka s then 1 else 0))
    ∧ ((savingsStep pa ps ra ka rs ks acc s).audio.bytes
        = acc.audio.bytes + (if audioCounted pa ra ka s then s.size_bytes else 0))
    ∧ ((savingsStep pa ps ra ka rs ks acc s).subtitle.tracks
        = acc.subtitle.tracks + (if subtitleCounted ps rs ks s then 1 else 0))
    ∧ ((savingsStep pa ps ra ka rs ks acc s).subtitle.bytes
        = acc.subtitle.bytes + (if subtitleCounted ps rs ks s then s.size_bytes else 0))
    ∧ ((savingsStep pa ps ra ka rs ks acc s).total_savings
        = acc.total_savings + (if audioCounted pa ra ka s then s.size_bytes else 0)
            + (if subtitleCounted ps rs ks s then s.size_bytes else 0)) := by
  have e1 : (("audio" : String) == "audio") = true := by decide
  have e2 : (("audio" : String) == "subtitle") = false := by decide
  have e3 : (("subtitle" : String) == "audio") = false := by decide
  have e4 : (("subtitle" : String) == "subtitle") = true := by decide
  rcases hs with hs | hs
  · by_cases hpa : pa
    · by_cases hm : langMatches ra ka s.language <;>
        simp [savingsStep, audioCounted, subtitleCounted, hs, hpa, hm, e1, e2]
    · simp [savingsStep, audioCounted, subtitleCounted, hs, hpa, e1, e2]
  · by_cases hps : ps
    · by_cases hm : langMatches rs ks s.language <;>
        simp [savingsStep, audioCounted, subtitleCounted, hs, hps, hm, e3, e4]
    · simp [savingsStep, audioCounted, subtitleCounted, hs, hps, e3, e4]

/-- Helper: characterization of the analyze_savings fold over any list of
audio or subtitle stream entries: each per-kind breakdown accumulates the
sizes and the count of the streams its counted-predicate selects, and the
total accumulates both kinds. -/
theorem savings_foldl_char (pa ps : Bool) (ra ka rs ks : List String) :
    ∀ (ss : List StreamSize) (acc : SavingsResult),
      (∀ s ∈ ss, s.type = "audio" ∨ s.type = "subtitle") →
      ((ss.foldl (savingsStep pa ps ra ka rs ks) acc).original_size = acc.original_size)
      ∧ ((ss.foldl (savingsStep pa ps ra ka rs ks) acc).audio.tracks
          = acc.audio.tracks + (ss.filter (audioCounted pa ra ka)).length)
      ∧ ((ss.foldl (savingsStep pa ps ra ka rs ks) acc).audio.bytes
          = acc.audio.bytes
            + ((ss.filter (audioCounted pa ra ka)).map (fun s => s.size_bytes)).sum)
      ∧ ((ss.foldl (savingsStep pa ps ra ka rs ks) acc).subtitle.tracks
          = acc.subtitle.tracks + (ss.filter (subtitleCounted ps rs ks)).length)
      ∧ ((ss.foldl (savingsStep pa ps ra ka rs ks) acc).subtitle.bytes
          = acc.subtitle.bytes
            + ((ss.filter (subtitleCounted ps rs ks)).map (fun s => s.size_bytes)).sum)
      ∧ ((ss.foldl (savingsStep pa ps ra ka rs ks) acc).total_savings
          = acc.total_savings
            + ((ss.filter (audioCounted pa ra ka)).map (fun s => s.size_bytes)).sum
            + ((ss.filter (subtitleCounted ps rs ks)).map (fun s => s.size_bytes)).sum) := by
  intro ss
  induction ss with
  | nil => intro acc _; simp
  | cons s rest ih =>
    intro acc hall
    have hhead := hall s (List.mem_cons_self _ _)
    obtain ⟨p0, p1, p2, p3, p4, p5⟩ :=
      savingsStep_fields pa ps ra ka rs ks acc s hhead
    obtain ⟨i0, i1, i2, i3, i4, i5⟩ :=
      ih (savingsStep pa ps ra ka rs ks acc s)
        (fun x hx => hall x (List.mem_cons_of_mem _ hx))
    rw [List.foldl_cons]
    refine ⟨by rw [i0, p0], ?_, ?_, ?_, ?_, ?_⟩
    · rw [i1, p1, List.filter_cons]
      by_cases hc : audioCounted pa ra ka s <;> simp [hc] <;> omega
    · rw [i2, p2, List.filter_cons]
      by_cases hc : audioCounted pa ra ka s <;> simp [hc] <;> omega
    · rw [i3, p3, List.filter_cons]
      by_cases hc : subtitleCounted ps rs ks s <;> simp [hc] <;> omega
    · rw [i4, p4, List.filter_cons]
      by_cases hc : subtitleCounted ps rs ks s <;> simp [hc] <;> omega
    · rw [i5, p5, List.filter_cons, List.filter_cons]
      by_cases hc : audioCounted pa ra ka s <;>
        by_cases hc2 : subtitleCounted ps rs ks s <;> simp [hc, hc2] <;> omega

/-- Helper: every entry produced by get_stream_sizes is an audio or subtitle
stream. -/
theorem get_stream_sizes_types (duration : ℚ) (streams : List FFStream) :
    ∀ s ∈ get_stream_sizes duration streams,
      s.type = "audio" ∨ s.type = "subtitle" := by
  intro s hs
  unfold get_stream_sizes at hs
  simp only [List.mem_map, List.mem_filter] at hs
  obtain ⟨x, ⟨-, hcond⟩, rfl⟩ := hs
  have hx := (Bool.and_eq_true _ _).mp hcond |>.1
  rcases (Bool.or_eq_true _ _).mp hx with h | h
  · exact Or.inl (by simpa using h)
  · exact Or.inr (by simpa using h)

/-- Helper: filtering an enumerated list by a predicate on the elements has
the same length as filtering the list itself. -/
theorem enumFrom_filter_length {α : Type} (q : α → Bool) :
    ∀ (n : Nat) (l : List α),
      ((List.enumFrom n l).filter (fun p => q p.2)).length = (l.filter q).length := by
  intro n l
  induction l generalizing n with
  | nil => rfl
  | cons a as ih =>
    rw [List.enumFrom, List.filter_cons, List.filter_cons]
    by_cases hq : q a = true
    · simp only [hq, if_pos]
      simp [ih]
    · simp only [hq]
      simp [ih]

/-- Helper: the number of tracks the selector picks from the probe data of a
file, expressed as a count over the raw streams. -/
theorem filter_tracks_get_tracks_length (streams : List FFStream) (κ : String)
    (R K : List String) (hg : ¬(R = [] ∧ K = [])) :
    (filter_tracks_by_type (get_tracks streams) κ R K).length
      = (streams.filter (fun s =>
          (langMatches R K (normLang s.lang_tag) && (s.codec_type == κ))
          && (s.codec_type == "audio" || s.codec_type == "subtitle"))).length := by
  unfold filter_tracks_by_type get_tracks
  rw [if_neg hg, List.length_map, List.filter_map, List.filter_map, List.length_map,
    List.filter_filter, List.filter_filter]
  show ((streams.enum).filter (fun p =>
      (langMatches R K (normLang p.2.lang_tag) && (p.2.codec_type == κ))
      && (p.2.codec_type == "audio" || p.2.codec_type == "subtitle"))).length = _
  exact enumFrom_filter_length
    (fun s => (langMatches R K (normLang s.lang_tag) && (s.codec_type == κ))
      && (s.codec_type == "audio" || s.codec_type == "subtitle")) 0 streams

/-- Helper: a filter over the stream-size entries is the image of a filter
over the raw streams. -/
theorem counted_filter_eq (duration : ℚ) (streams : List FFStream)
    (p : StreamSize → Bool) :
    (get_stream_sizes duration streams).filter p
      = (streams.filter (fun s => p (streamRecord duration s)
          && ((s.codec_type == "audio" || s.codec_type == "subtitle")
              && s.bit_rate.isSome))).map (streamRecord duration) := by
  unfold get_stream_sizes
  rw [List.filter_map, List.filter_filter]
  rfl

/-- Helper: on streams whose language tags are already normalized and whose
bitrates are determinable, the estimator counts per kind exactly the streams
the selector would pick, and its per-kind byte total is the sum of the
estimated sizes of exactly those streams. -/
theorem selector_est_agree (duration : ℚ) (streams : List FFStream) (κ : String)
    (R K : List String)
    (hκ : κ = "audio" ∨ κ = "subtitle")
    (hnorm : ∀ s ∈ streams, (s.codec_type = "audio" ∨ s.codec_type = "subtitle") →
        tagLangOrUnd s.lang_tag = normLang s.lang_tag ∧ s.bit_rate.isSome = true) :
    ((get_stream_sizes duration streams).filter
        (fun s => (s.type == κ) && langMatches R K s.language)).length
      = (filter_tracks_by_type (get_tracks streams) κ R K).length
    ∧ (((get_stream_sizes duration streams).filter
        (fun s => (s.type == κ) && langMatches R K s.language)).map
          (fun s => s.size_bytes)).sum
      = ((streams.filter (fun s => (s.codec_type == κ)
            && langMatches R K (normLang s.lang_tag))).map
          (fun s => streamEstimatedSize duration (s.bit_rate.getD 0))).sum := by
  have e1 : (get_stream_sizes duration streams).filter
        (fun s => (s.type == κ) && langMatches R K s.language)
      = (streams.filter (fun s =>
          ((s.codec_type == κ) && langMatches R K (tagLangOrUnd s.lang_tag))
          && ((s.codec_type == "audio" || s.codec_type == "subtitle")
              && s.bit_rate.isSome))).map (streamRecord duration) :=
    counted_filter_eq duration streams _
  have hpred : ∀ s ∈ streams,
      (((s.codec_type == κ) && langMatches R K (tagLangOrUnd s.lang_tag))
        && ((s.codec_type == "audio" || s.codec_type == "subtitle")
            && s.bit_rate.isSome))
      = ((s.codec_type == κ) && langMatches R K (normLang s.lang_tag)) := by
    intro s hsmem
    by_cases hck : s.codec_type = κ
    · have hgood : s.codec_type = "audio" ∨ s.codec_type = "subtitle" := by
        rw [hck]; exact hκ
      obtain ⟨htag, hbit⟩ := hnorm s hsmem hgood
      have hg2 : (s.codec_type == "audio" || s.codec_type == "subtitle") = true := by
        rcases hgood with h | h <;> simp [h]
      rw [htag, hg2, hbit]
      simp
    · have hck2 : (s.codec_type == κ) = false := by
        simp [hck]
      simp [hck2]
  have e2 : streams.filter (fun s =>
        ((s.codec_type == κ) && langMatches R K (tagLangOrUnd s.lang_tag))
        && ((s.codec_type == "audio" || s.codec_type == "subtitle")
            && s.bit_rate.isSome))
      = streams.filter (fun s =>
        (s.codec_type == κ) && langMatches R K (normLang s.lang_tag)) :=
    List.filter_congr hpred
  constructor
  · rw [e1, e2, List.length_map]
    by_cases hg : R = [] ∧ K = []
    · obtain ⟨rfl, rfl⟩ := hg
      rw [filter_tracks_by_type, if_pos ⟨rfl, rfl⟩]
      have hfalse : ∀ s ∈ streams,
          ((s.codec_type == κ)
            && langMatches ([] : List String) [] (normLang s.lang_tag))
          = ((fun _ => false) s) := by
        intro s _
        have hl : langMatches ([] : List String) [] (normLang s.lang_tag) = false := by
          simp [langMatches]
        simp [hl]
      rw [List.filter_congr hfalse]
      simp
    · rw [filter_tracks_get_tracks_length streams κ R K hg]
      congr 1
      apply List.filter_congr
      intro s _
      by_cases hck : s.codec_type = κ
      · have hgood : s.codec_type = "audio" ∨ s.codec_type = "subtitle" := by
          rw [hck]; exact hκ
        have hg2 : (s.codec_type == "audio" || s.codec_type == "subtitle") = true := by
          rcases hgood with h | h <;> simp [h]
        have hck2 : (s.codec_type == κ) = true := by simp [hck]
        rw [hg2, hck2]
        simp [Bool.and_comm]
      · have hck2 : (s.codec_type == κ) = false := by simp [hck]
        simp [hck2]
  · rw [e1, List.map_map, e2]
    rfl

/-- Helper: the summed image of two disjoint filters is at most the summed
image of the whole list. -/
theorem filter_disjoint_sum_le {α : Type} (f : α → Nat) (p q : α → Bool)
    (l : List α) (hpq : ∀ s ∈ l, ¬(p s = true ∧ q s = true)) :
    ((l.filter p).map f).sum + ((l.filter q).map f).sum ≤ (l.map f).sum := by
  induction l with
  | nil => simp
  | cons a as ih =>
    have hdisj := hpq a (List.mem_cons_self _ _)
    have ihh := ih (fun s hs => hpq s (List.mem_cons_of_mem _ hs))
    rw [List.filter_cons, List.filter_cons, List.map_cons]
    by_cases hp : p a = true
    · by_cases hq : q a = true
      · exact absurd ⟨hp, hq⟩ hdisj
      · simp [hp, hq]
        omega
    · by_cases hq : q a = true
      · simp [hp, hq]
        omega
      · simp [hp, hq]
        omega

/-- C3 (amended): estimator and selector agree on streams whose language tag
equals its normalized (case-folded) form and whose bitrate is determinable.
For each kind, the per-kind trackCount of the savings estimate equals the
number of tracks the Track Selector selects for removal under the same rules
when the kind is processed (and is zero when it is not), and the per-kind
byte total is the sum of the estimated sizes of exactly the streams the
selector would remove. Without the normalization hypothesis the agreement
fails (see the counterexample): the estimator compares the raw language tag
while the selector compares the lowercased one, and a selected track without
a determinable bitrate is not counted at all. -/
theorem C3_estimator_selector_agreement (duration : ℚ) (streams : List FFStream)
    (original_size : Nat) (pa ps : Bool) (ra ka rs ks : List String)
    (hnorm : ∀ s ∈ streams, (s.codec_type = "audio" ∨ s.codec_type = "subtitle") →
        tagLangOrUnd s.lang_tag = normLang s.lang_tag ∧ s.bit_rate.isSome = true) :
    ((analyze_savings duration streams original_size pa ps ra ka rs ks).audio.tracks
        = if pa then (filter_tracks_by_type (get_tracks streams) "audio" ra ka).length
          else 0)
    ∧ ((analyze_savings duration streams original_size pa ps ra ka rs ks).audio.bytes
        = if pa then ((streams.filter (fun s => (s.codec_type == "audio")
              && langMatches ra ka (normLang s.lang_tag))).map
            (fun s => streamEstimatedSize duration (s.bit_rate.getD 0))).sum
          else 0)
    ∧ ((analyze_savings duration streams original_size pa ps ra ka rs ks).subtitle.tracks
        = if ps then (filter_tracks_by_type (get_tracks streams) "subtitle" rs ks).length
          else 0)
    ∧ ((analyze_savings duration streams original_size pa ps ra ka rs ks).subtitle.bytes
        = if ps then ((streams.filter (fun s => (s.codec_type == "subtitle")
              && langMatches rs ks (normLang s.lang_tag))).map
            (fun s => streamEstimatedSize duration (s.bit_rate.getD 0))).sum
          else 0) := by
  unfold analyze_savings
  obtain ⟨g0, g1, g2, g3, g4, g5⟩ :=
    savings_foldl_char pa ps ra ka rs ks (get_stream_sizes duration streams)
      { total_savings := 0, audio := ⟨0, 0⟩, subtitle := ⟨0, 0⟩,
        original_size := original_size }
      (get_stream_sizes_types duration streams)
  have hagreeA := selector_est_agree duration streams "audio" ra ka (Or.inl rfl) hnorm
  have hagreeS := selector_est_agree duration streams "subtitle" rs ks (Or.inr rfl) hnorm
  refine ⟨?_, ?_, ?_, ?_⟩
  · rw [g1]
    by_cases hpa : pa = true
    · rw [if_pos hpa, ← hagreeA.1, Nat.zero_add]
      congr 1
      apply List.filter_congr
      intro s _
      simp [audioCounted, hpa]
    · have hpa2 : pa = false := by revert hpa; cases pa <;> simp
      rw [if_neg hpa]
      have hf : ∀ s ∈ get_stream_sizes duration streams,
          audioCounted pa ra ka s = ((fun _ => false) s) := by
        intro s _
        simp [audioCounted, hpa2]
      rw [List.filter_congr hf]
      simp
  · rw [g2]
    by_cases hpa : pa = true
    · rw [if_pos hpa, ← hagreeA.2, Nat.zero_add]
      have hfe : (get_stream_sizes duration streams).filter (audioCounted pa ra ka)
          = (get_stream_sizes duration streams).filter
              (fun s => (s.type == "audio") && langMatches ra ka s.language) := by
        apply List.filter_congr
        intro s _
        simp [audioCounted, hpa]
      rw [hfe]
    · have hpa2 : pa = false := by revert hpa; cases pa <;> simp
      rw [if_neg hpa]
      have hf : ∀ s ∈ get_stream_sizes duration streams,
          audioCounted pa ra ka s = ((fun _ => false) s) := by
        intro s _
        simp [audioCounted, hpa2]
      rw [List.filter_congr hf]
      simp
  · rw [g3]
    by_cases hps : ps = true
    · rw [if_pos hps, ← hagreeS.1, Nat.zero_add]
      congr 1
      apply List.filter_congr
      intro s _
      simp [subtitleCounted, hps]
    · have hps2 : ps = false := by revert hps; cases ps <;> simp
      rw [if_neg hps]
      have hf : ∀ s ∈ get_stream_sizes duration streams,
          subtitleCounted ps rs ks s = ((fun _ => false) s) := by
        intro s _
        simp [subtitleCounted, hps2]
      rw [List.filter_congr hf]
      simp
  · rw [g4]
    by_cases hps : ps = true
    · rw [if_pos hps, ← hagreeS.2, Nat.zero_add]
      have hfe : (get_stream_sizes duration streams).filter (subtitleCounted ps rs ks)
          = (get_stream_sizes duration streams).filter
              (fun s => (s.type == "subtitle") && langMatches rs ks s.language) := by
        apply List.filter_congr
        intro s _
        simp [subtitleCounted, hps]
      rw [hfe]
    · have hps2 : ps = false := by revert hps; cases ps <;> simp
      rw [if_neg hps]
      have hf : ∀ s ∈ get_stream_sizes duration streams,
          subtitleCounted ps rs ks s = ((fun _ => false) s) := by
        intro s _
        simp [subtitleCounted, hps2]
      rw [List.filter_congr hf]
      simp

/-- Witness for C3 on a normalized stream: one English audio stream with a
known bitrate, remove-set eng, audio processed. -/
theorem C3_estimator_selector_agreement_witness :
    (analyze_savings 1 [⟨"audio", some "eng", none, false, false, some 8⟩] 0
        true false ["eng"] [] [] []).audio.tracks
      = if true then
          (filter_tracks_by_type
            (get_tracks [⟨"audio", some "eng", none, false, false, some 8⟩])
            "audio" ["eng"] []).length
        else 0 :=
  (C3_estimator_selector_agreement 1
    [⟨"audio", some "eng", none, false, false, some 8⟩] 0
    true false ["eng"] [] [] [] (by decide)).1

/-- C3 counterexample: with an uppercase ENG language tag the selector picks
the track (normalized language eng is in the remove-set) but the estimator,
comparing the raw tag, counts nothing, refuting the claimed equivalence. -/
theorem C3_counterexample :
    filter_tracks_by_type
        (get_tracks [⟨"audio", some "ENG", none, false, false, some 8⟩])
        "audio" ["eng"] [] = [0]
    ∧ (analyze_savings 1 [⟨"audio", some "ENG", none, false, false, some 8⟩] 0
        true false ["eng"] [] [] []).audio.tracks = 0 := by
  constructor
  · decide
  · decide

/-- C4 (amended): savings additivity holds: total_savings equals the sum of
the per-kind bytesRemoved, and total_savings is bounded by the sum of the
estimated sizes of all probed streams of the file. The original claimed
bound total_savings less-or-equal original_size does not hold (see the
counterexample): the code never compares the bitrate-times-duration
estimates against the on-disk size. -/
theorem C4_savings_additivity (duration : ℚ) (streams : List FFStream)
    (original_size : Nat) (pa ps : Bool) (ra ka rs ks : List String) :
    ((analyze_savings duration streams original_size pa ps ra ka rs ks).total_savings
        = (analyze_savings duration streams original_size pa ps ra ka rs ks).audio.bytes
          + (analyze_savings duration streams original_size pa ps ra ka rs ks).subtitle.bytes)
    ∧ ((analyze_savings duration streams original_size pa ps ra ka rs ks).total_savings
        ≤ ((get_stream_sizes duration streams).map (fun s => s.size_bytes)).sum)
    ∧ ((analyze_savings duration streams original_size pa ps ra ka rs ks).original_size
        = original_size) := by
  unfold analyze_savings
  obtain ⟨g0, g1, g2, g3, g4, g5⟩ :=
    savings_foldl_char pa ps ra ka rs ks (get_stream_sizes duration streams)
      { total_savings := 0, audio := ⟨0, 0⟩, subtitle := ⟨0, 0⟩,
        original_size := original_size }
      (get_stream_sizes_types duration streams)
  refine ⟨by rw [g5, g2, g4]; simp only [Nat.zero_add], ?_, by rw [g0]⟩
  rw [g5]
  simp only [Nat.zero_add]
  have hdisj : ∀ s ∈ get_stream_sizes duration streams,
      ¬(audioCounted pa ra ka s = true ∧ subtitleCounted ps rs ks s = true) := by
    intro s _ ⟨h1, h2⟩
    simp only [audioCounted, Bool.and_eq_true, beq_iff_eq] at h1
    simp only [subtitleCounted, Bool.and_eq_true, beq_iff_eq] at h2
    have ha := h1.1.2
    have hb := h2.1.2
    rw [ha] at hb
    exact absurd hb (by decide)
  exact filter_disjoint_sum_le (fun s => s.size_bytes)
    (audioCounted pa ra ka) (subtitleCounted ps rs ks)
    (get_stream_sizes duration streams) hdisj

/-- C4 counterexample: one audio stream with bitrate 8 over duration 1 gives
an estimated saving of 1 byte while the file size on disk is 0, so
total_savings exceeds original_size. -/
theorem C4_counterexample :
    (analyze_savings 1 [⟨"audio", some "eng", none, false, false, some 8⟩] 0
        true false ["eng"] [] [] []).total_savings = 1
    ∧ (analyze_savings 1 [⟨"audio", some "eng", none, false, false, some 8⟩] 0
        true false ["eng"] [] [] []).original_size = 0
    ∧ ¬((analyze_savings 1 [⟨"audio", some "eng", none, false, false, some 8⟩] 0
        true false ["eng"] [] [] []).total_savings
      ≤ (analyze_savings 1 [⟨"audio", some "eng", none, false, false, some 8⟩] 0
        true false ["eng"] [] [] []).original_size) := by
  have hsize : streamEstimatedSize 1 8 = 1 := by
    unfold streamEstimatedSize
    have h8 : ((8 : ℚ) * 1 / 8) = ((1 : ℤ) : ℚ) := by norm_num
    rw [h8, Int.floor_intCast]
    rfl
  have hrec : streamRecord 1 ⟨"audio", some "eng", none, false, false, some 8⟩
      = ⟨"audio", "eng", 1⟩ := by
    unfold streamRecord
    rw [show ((some (8 : ℚ)).getD 0) = 8 from rfl, hsize]
    rfl
  have hss : get_stream_sizes 1 [⟨"audio", some "eng", none, false, false, some 8⟩]
      = [⟨"audio", "eng", 1⟩] := by
    show [streamRecord 1 ⟨"audio", some "eng", none, false, false, some 8⟩]
        = [⟨"audio", "eng", 1⟩]
    rw [hrec]
  unfold analyze_savings
  rw [hss]
  refine ⟨?_, ?_, ?_⟩ <;> decide

end MediaTrimmer
